import Mathlib

/-!
Verification of the aitomics response-lineage and comparison engine.

This file gives a shallow embedding, in Lean 4, of the parts of the
aitomics source that the verified properties talk about:

* the `Response` lineage model (`src/response/response.js`, current
  revision): constructor, `get`, `rootInput`, `toString`,
  `toStringExpanded`, `toJSON`, `Response.parse`, `Response.linkCaller`;
* the serialization helpers `writeResponses` / `readResponses`
  (`src/util/helper.js`);
* the caller registry (`src/callers/base.js`): the `Caller` constructor;
* the `Comparator` of `src/comparators/comparator.js` (the revision
  exporting `Comparator` with `compareMultiple`): `match`, `compareMultiple`;
* the comparison models `EqualComparisonModel`, `CohensComparisonModel`,
  `DistanceComparisonModel`, `KrippendorffsComparisonModel`
  (`src/comparators/models/`, current revisions).

Modelling conventions:

* JS primitive values that occur as response outputs and chain seeds are
  modelled by `Val` (strings and integers); JS template-string coercion is
  `Val.toJSString`.
* JS numbers are modelled by `ℚ` (the statistics in the source only
  perform field operations, comparisons, `Math.floor` and `Math.round` on
  values derived from small integer counts, where double-precision
  evaluation and exact rational evaluation agree on the claims checked
  here, all of whose concrete evaluations stay far from representation
  boundaries).
* JS exceptions are modelled with `Except String` / `Option`; `NaN`
  results are modelled by `none`.
* A `Response` object is a node of the inductive `RNode`: either a
  primitive seed value, or a response record.  `root` and `level` are
  stored fields, exactly as in the source (where `Response.parse`
  overwrites them), not derived ones.
* Object-identity-sensitive behaviour (the pending-lookup table,
  `linkCaller` mutation, caller registration) is modelled separately with
  an explicit heap (`LinkState`), since the value-level chain model cannot
  express rebinding a shared caller reference.
-/

namespace Aitomics

/-- Primitive JS value occurring as a response output or a seed input. -/
inductive Val where
  | str (s : String)
  | num (n : Int)
deriving DecidableEq, Repr

/-- JS string coercion of a primitive value, as performed by template
strings and by using the value as an object property key. -/
def Val.toJSString : Val → String
  | .str s => s
  | .num n => toString n

/-- The `generatingType` enum of `src/response/response.js`
(`PROGRAMMATIC`, `INPUT`, `CUSTOM` symbols). -/
inductive Gen where
  | programmatic
  | input
  | custom
deriving DecidableEq, Repr

/-- A caller reference held by a response: the caller's `id`, plus whether
it is a registry-resolved caller (`resolved = true`) or the
execution-incapable identity stub manufactured by `Response.create`
during parsing (`resolved = false`). -/
structure CallerRef where
  id : String
  resolved : Bool
deriving DecidableEq, Repr

/-- A lineage node: either a primitive seed value, or a `Response`
record `{output, caller, root, level, generator, input}`.  `root` and
`level` are stored fields exactly as in the JS object. -/
inductive RNode where
  | seed (v : Val)
  | resp (output : Val) (caller : CallerRef) (root : Bool) (level : Int)
         (gen : Gen) (input : RNode)
deriving DecidableEq, Repr

namespace RNode

/-- The `instanceof Response` test. -/
def isResp : RNode → Bool
  | .seed _ => false
  | .resp .. => true

/-- The stored `level` field (`0` on a seed, where the source would read
`undefined`; only ever read on responses). -/
def levelOf : RNode → Int
  | .seed _ => 0
  | .resp _ _ _ lv _ _ => lv

/-- The stored `root` field (only ever read on responses). -/
def rootOf : RNode → Bool
  | .seed _ => true
  | .resp _ _ rt _ _ _ => rt

/-- The `output` field (on a seed, the seed value itself; only ever read
on responses). -/
def outputOf : RNode → Val
  | .seed v => v
  | .resp o _ _ _ _ _ => o

/-- The `input` field (only ever read on responses). -/
def inputOf : RNode → RNode
  | .seed v => .seed v
  | .resp _ _ _ _ _ i => i

/-- Number of response records above the seed. -/
def depth : RNode → Nat
  | .seed _ => 0
  | .resp _ _ _ _ _ i => i.depth + 1

end RNode

namespace Response

/-- The `Response` constructor (`src/response/response.js`): stores the
output, caller and input, computes `root = !(input instanceof Response)`
and `level = root ? 1 : input.level + 1`.  The `caller instanceof Caller`
validation always passes in this typed embedding. -/
def construct (output : Val) (caller : CallerRef) (input : RNode)
    (gen : Gen := .programmatic) : RNode :=
  let root := !input.isResp
  .resp output caller root (if root then 1 else input.levelOf + 1) gen input

/-- `Response.get(level)`: walks `level` steps back along `input`,
testing `curr instanceof Response` at the start of each iteration and
throwing (here: `none`) when the test fails before the steps are
exhausted.  The node finally reached is returned without a test. -/
def get : RNode → Nat → Option RNode
  | curr, 0 => some curr
  | curr, k + 1 =>
    match curr with
    | .seed _ => none
    | .resp _ _ _ _ _ input => get input k

/-- Specification-side list of the nodes of a chain, from the node itself
down to (and including) the seed.  `(chainNodes r).get? i` is the node
`i` hops back along `input`. -/
def chainNodes : RNode → List RNode
  | .seed v => [.seed v]
  | .resp o c rt lv g input => .resp o c rt lv g input :: chainNodes input

/-- `rootInput()`: follows `input` while `curr instanceof Response`. -/
def rootInput : RNode → Val
  | .seed v => v
  | .resp _ _ _ _ _ input => rootInput input

/-- One hop of `toString()`: `[callerId]: 'output' (level)`. -/
def toStringOne (output : Val) (caller : CallerRef) (level : Int) : String :=
  "[" ++ caller.id ++ "]: \x27" ++ output.toJSString ++ "\x27 (" ++ toString level ++ ")"

/-- `toStringExpanded()` with the default `newline = true`: concatenates
`toString()` of every node while `curr instanceof Response`. -/
def toStringExpanded : RNode → String
  | .seed _ => ""
  | .resp o c _ lv _ input => toStringOne o c lv ++ "\n" ++ toStringExpanded input

/-- The output values of all response nodes of a chain, most recent first. -/
def outputsList : RNode → List Val
  | .seed _ => []
  | .resp o _ _ _ _ input => o :: outputsList input

end Response

/-- A serialized response tree, as produced by `toJSON()` and
`JSON.stringify`: the caller is replaced by its id string, and the
`generator` field (a JS Symbol) is dropped by `JSON.stringify`. -/
inductive JTree where
  | prim (v : Val)
  | node (output : Val) (caller : String) (input : JTree) (root : Bool) (level : Int)
deriving DecidableEq, Repr

namespace Response

/-- `toJSON()`: shallow copy with the caller as its id, recursing into
`input` when it is a response. -/
def toJSON : RNode → JTree
  | .seed v => .prim v
  | .resp o c rt lv _ input => .node o c.id (toJSON input) rt lv

/-- Value-level `Response.parse(obj)` (current `src/response/response.js`).
`reg` is the set of ids in the live `existingCallers` registry.  A
registered id resolves to the registered caller and the generator
defaults to `PROGRAMMATIC` (the serialized Symbol having been dropped);
an unregistered id goes through `Response.create`, producing an identity
stub caller with that id and generator `CUSTOM`.  The stored `root` and
`level` of the serialized object are then copied verbatim onto the
response, and `input` is parsed recursively when it is response-shaped.
(The pending-lookup side effect is modelled separately by
`Response.parseS` on `LinkState`.) -/
def parse (reg : List String) : JTree → RNode
  | .prim v => .seed v
  | .node o cid input rt lv =>
    let registered := reg.contains cid
    let caller : CallerRef := { id := cid, resolved := registered }
    let gen : Gen := if registered then .programmatic else .custom
    let inputN : RNode :=
      match input with
      | .node o' c' i' r' l' => parse reg (.node o' c' i' r' l')
      | .prim v => .seed v
    .resp o caller rt lv gen inputN

/-- `Response.parse` applied (by `parseNestedResponse` in
`src/util/helper.js`) to an already-parsed `Response` instance: the
caller is already a `Caller`, so a new `Response` is constructed from the
same fields, `root` and `level` are copied verbatim, and the input is
re-parsed when it is a response. -/
def parseResp : RNode → RNode
  | .seed v => .seed v
  | .resp o c rt lv g input =>
    let inputN : RNode :=
      match input with
      | .resp o' c' r' l' g' i' => parseResp (.resp o' c' r' l' g' i')
      | .seed v => .seed v
    .resp o c rt lv g inputN

theorem parseResp_eq (r : RNode) : parseResp r = r := by
  induction r with
  | seed v => rfl
  | resp o c rt lv g input ih =>
    cases input with
    | seed v => rfl
    | resp o' c' r' l' g' i' =>
      simp only [parseResp] at ih ⊢
      exact congrArg _ ih

end Response

/-- The recursive step of `parseNestedResponse` applied to
`response.input`, which is either a primitive (returned as-is) or a
`Response` instance, in which case `Response.parse` runs again on the
instance and the new response's input is processed recursively. -/
def parseNestedAux (r : RNode) : RNode :=
  match h : Response.parseResp r with
  | .seed v => .seed v
  | .resp o c rt lv g input => .resp o c rt lv g (parseNestedAux input)
termination_by r.depth
decreasing_by
  rw [Response.parseResp_eq] at h
  subst h
  simp [RNode.depth]

theorem parseNestedAux_eq (r : RNode) : parseNestedAux r = r := by
  induction r using parseNestedAux.induct with
  | case1 r v h =>
    rw [Response.parseResp_eq] at h
    subst h
    rw [parseNestedAux, Response.parseResp_eq]
  | case2 r o c rt lv g input h ih =>
    rw [Response.parseResp_eq] at h
    subst h
    rw [parseNestedAux, Response.parseResp_eq]
    simpa using ih

/-- `parseNestedResponse` of `readResponses` (`src/util/helper.js`):
primitive strings are returned as-is; otherwise the node is parsed via
`Response.parse` and its input is processed recursively.  (The structure
check for the presence of `caller` / `input` / `output` always passes on
the typed `JTree`.) -/
def parseNestedResponse (reg : List String) : JTree → RNode
  | .prim v => .seed v
  | .node o cid input rt lv =>
    match Response.parse reg (.node o cid input rt lv) with
    | .seed v => .seed v
    | .resp o' c' r' l' g' i' => .resp o' c' r' l' g' (parseNestedAux i')

/-- The fixed snapshot tag `AITOMICS_FILE_HEADER`. -/
def AITOMICS_FILE_HEADER : String := "AITOMICS_RESPONSE_FILE_v1"

/-- A snapshot file: the `_header` tag and a list of serialized response
trees.  (The `timestamp` field is written but never read back, and is
omitted here.) -/
structure JFile where
  header : String
  responses : List JTree
deriving DecidableEq, Repr

/-- `writeResponses`: wraps the responses (already array-shaped here) with
the fixed header; `JSON.stringify` renders each response via `toJSON()`. -/
def writeResponses (responses : List RNode) : JFile :=
  { header := AITOMICS_FILE_HEADER, responses := responses.map Response.toJSON }

/-- `readResponses`: rejects a file whose `_header` differs from the fixed
tag, then reconstructs every response via `parseNestedResponse`. -/
def readResponses (reg : List String) (f : JFile) : Except String (List RNode) :=
  if f.header ≠ AITOMICS_FILE_HEADER then
    .error "Invalid file format: Not an Aitomics response file"
  else
    .ok (f.responses.map (parseNestedResponse reg))

/-!
Stateful model of the caller registry, the pending-lookup table and
caller rebinding.  Caller objects and response objects live in explicit
stores, so that JS reference equality is expressible: two `CallerObj`
values are the same object exactly when their allocation tags agree, and
a response cell is addressed by its index into the heap.
-/

/-- A caller object: its `id` plus an allocation tag modelling object
identity (reference equality is equality of tags). -/
structure CallerObj where
  id : String
  tag : Nat
deriving DecidableEq, Repr

/-- A heap-allocated response record; `input` is either a primitive seed
value or the address of another response cell. -/
structure RespCell where
  output : Val
  caller : CallerObj
  input : Sum Val Nat
  root : Bool
  level : Int
  gen : Gen
deriving DecidableEq, Repr

/-- The process-wide mutable state: the `existingCallers` registry
(`src/callers/base.js`), the `pendingCallerLookups` map
(`src/response/response.js`), the response heap, and a fresh-tag
counter. -/
structure LinkState where
  existingCallers : List (String × CallerObj)
  pendingCallerLookups : List (String × List Nat)
  heap : List RespCell
  nextTag : Nat
deriving DecidableEq, Repr

def LinkState.empty : LinkState := ⟨[], [], [], 0⟩

/-- Registry lookup `existingCallers[id]`. -/
def lookupCaller (s : LinkState) (id : String) : Option CallerObj :=
  (s.existingCallers.find? (fun e => e.1 = id)).map (fun e => e.2)

namespace Caller

/-- The `Caller` constructor (`src/callers/base.js`): throws on a
duplicate id, otherwise stores the new caller object in
`existingCallers`.  It does not invoke `Response.linkCaller`. -/
def construct (id : String) (s : LinkState) : Except String (CallerObj × LinkState) :=
  if (lookupCaller s id).isSome then
    .error ("Duplicate Caller entry (" ++ id ++ ")")
  else
    let c : CallerObj := ⟨id, s.nextTag⟩
    .ok (c, { s with existingCallers := s.existingCallers ++ [(id, c)],
                     nextTag := s.nextTag + 1 })

end Caller

/-- Adds a response address to `pendingCallerLookups[id]`, creating the
entry when absent (the `Set` is a list here; addresses added are fresh,
so no duplicates arise). -/
def pendingAdd (p : List (String × List Nat)) (id : String) (addr : Nat) :
    List (String × List Nat) :=
  if (p.find? (fun e => e.1 = id)).isSome then
    p.map (fun e => if e.1 = id then (e.1, e.2 ++ [addr]) else e)
  else
    p ++ [(id, [addr])]

namespace Response

/-- Stateful `Response.parse(obj)`: allocates a heap cell for the node
(after parsing its input).  A registered caller id resolves through the
registry; an unregistered one produces a fresh identity-stub caller
object (via `Response.create`) and records the response's address under
the id in `pendingCallerLookups`.  The serialized `root` and `level` are
copied verbatim.  (`Response.parse` is never applied to a primitive; the
`prim` case is unreachable.) -/
def parseS : JTree → LinkState → Nat × LinkState
  | .prim _, s => (0, s)
  | .node o cid inp rt lv, s =>
    let (inputRef, s1) : Sum Val Nat × LinkState :=
      match inp with
      | .prim v => (.inl v, s)
      | .node o' c' i' r' l' =>
        let (a, s') := parseS (.node o' c' i' r' l') s
        (.inr a, s')
    match lookupCaller s1 cid with
    | some c =>
      let cell : RespCell := ⟨o, c, inputRef, rt, lv, .programmatic⟩
      (s1.heap.length, { s1 with heap := s1.heap ++ [cell] })
    | none =>
      let stub : CallerObj := ⟨cid, s1.nextTag⟩
      let addr := s1.heap.length
      let cell : RespCell := ⟨o, stub, inputRef, rt, lv, .custom⟩
      (addr, { s1 with heap := s1.heap ++ [cell],
                       nextTag := s1.nextTag + 1,
                       pendingCallerLookups := pendingAdd s1.pendingCallerLookups cid addr })

/-- `Response.linkCaller(caller)`: when `pendingCallerLookups` holds an
entry for the caller's id, rebinds `caller` on every recorded response
and deletes the entry.  Defined in the source but never invoked by any
code path of the repository. -/
def linkCallerS (c : CallerObj) (s : LinkState) : LinkState :=
  match s.pendingCallerLookups.find? (fun e => e.1 = c.id) with
  | none => s
  | some e =>
    { s with
      heap := s.heap.mapIdx (fun i cell =>
        if e.2.contains i then { cell with caller := c } else cell),
      pendingCallerLookups := s.pendingCallerLookups.filter (fun e' => e'.1 ≠ c.id) }

end Response

/-!
The `Comparator` of `src/comparators/comparator.js` (the revision
exporting `Comparator.compareMultiple`; its `match` is identical, line
for line, in the revision exporting `ComparisonModel`).
-/

/-- A constructed comparator: two responses sharing a root input. -/
structure Comparator where
  a : RNode
  b : RNode
deriving DecidableEq, Repr

namespace Comparator

/-- The `Comparator` constructor: requires two responses with equal
(strict-equality) root inputs. -/
def construct (a b : RNode) : Except String Comparator :=
  if ¬ (a.isResp ∧ b.isResp) then
    .error "Mismatch in comparison, requires two responses"
  else if Response.rootInput a ≠ Response.rootInput b then
    .error "Mismatch in comparison, not comparing same input"
  else
    .ok ⟨a, b⟩

/-- Property assignment `set[k] = v` on a JS object used as a map:
overwrites in place when the key exists, otherwise appends.  (JS object
property order lists integer-like keys first; only key membership and the
stored values matter for the properties proved here.) -/
def objSet (m : List (String × RNode)) (k : String) (v : RNode) :
    List (String × RNode) :=
  if (m.find? (fun e => e.1 = k)).isSome then
    m.map (fun e => if e.1 = k then (k, v) else e)
  else
    m ++ [(k, v)]

/-- Property read `set[k]` on a JS object used as a map. -/
def objGet (m : List (String × RNode)) (k : String) : Option RNode :=
  (m.find? (fun e => e.1 = k)).map (fun e => e.2)

/-- The `transform` helper of `Comparator.match`: walks the list,
throwing on a non-`Response` element, and assigns
`set[e.rootInput()] = e`; the root input value is coerced to a string by
being used as a property key. -/
def transform (l : List RNode) : Except String (List (String × RNode)) :=
  l.foldlM
    (fun m e =>
      if e.isResp then
        .ok (objSet m (Response.rootInput e).toJSString e)
      else
        .error "List contains non-response type")
    []

/-- The loop body of `Comparator.match`: for an entry of the first
index whose key is present in the second index, a `Comparator` is
constructed from the two indexed responses and appended. -/
def matchStep (bset : List (String × RNode)) (res : List Comparator)
    (e : String × RNode) : Except String (List Comparator) :=
  match objGet bset e.1 with
  | some vb => do
    let c ← construct e.2 vb
    pure (res ++ [c])
  | none => pure res

/-- `Comparator.match(a, b)`: indexes both lists by root input, then for
every key of the first index present in the second, constructs a
`Comparator` from the two indexed responses. -/
def matchResponses (a b : List RNode) : Except String (List Comparator) := do
  let aset ← transform a
  let bset ← transform b
  aset.foldlM (matchStep bset) []

end Comparator

/-- A runtime comparison-model object, as `Comparator.run` /
`Comparator.compareMultiple` see it: the `isMultipleComparison` flag of
`ComparatorModel` (`src/comparators/models/base.js`) plus a `run`
implementation. -/
structure ComparatorModel where
  isMultipleComparison : Bool
  run : List Val → List Val → ℚ

namespace Comparator

/-- `Comparator.compareMultiple(responsesA, responsesB, model)`: array
and `instanceof ComparatorModel` checks hold by typing; rejects a model
that is not a multiple-comparison model; validates every element of both
lists is a `Response`; pairs the lists via `match`; errors when no pair
results; and runs the model on the outputs extracted from the matched
pairs. -/
def compareMultiple (responsesA responsesB : List RNode)
    (model : ComparatorModel) : Except String ℚ :=
  if ¬ model.isMultipleComparison then
    .error "This model is not designed for multiple comparisons, use run instead"
  else if ¬ responsesA.all RNode.isResp then
    .error "Element in first array is not a Response object"
  else if ¬ responsesB.all RNode.isResp then
    .error "Element in second array is not a Response object"
  else do
    let pairs ← matchResponses responsesA responsesB
    if pairs.length = 0 then
      .error "No matching responses found between the two lists"
    else
      pure (model.run (pairs.map (fun p => p.a.outputOf))
                      (pairs.map (fun p => p.b.outputOf)))

end Comparator

/-- Specification-side index key of a response: the string coercion of
its root input. -/
def keyOf (r : RNode) : String := (Response.rootInput r).toJSString

/-- Specification-side: the last response of a list whose root input
coerces to the given key. -/
def lastWithKey (l : List RNode) (k : String) : Option RNode :=
  (l.filter (fun e => keyOf e = k)).getLast?

/-!
Comparison models.  Their inputs are the label items handed to `run`:
in the repository these are strings or flat arrays of strings (`LVal`);
deeper nesting is not modelled.
-/

/-- A label item: a single string label or a flat array of string
labels. -/
inductive LVal where
  | s (x : String)
  | arr (xs : List String)
deriving DecidableEq, Repr

/-- The `Array.isArray` test on a label item. -/
def LVal.isArr : LVal → Bool
  | .s _ => false
  | .arr _ => true

/-- JS `Math.round` on the values arising here: `⌊x + 1/2⌋`. -/
def jsRound (q : ℚ) : Int := ⌊q + 1/2⌋

namespace EqualComparisonModel

/-- The `areEqual` helper of `EqualComparisonModel`
(`src/comparators/models/model-equals.js`): arrays are equal when both
empty, or of equal length with equal sorted contents
(`JSON.stringify(a.sort()) === JSON.stringify(b.sort())`, JS default
sort being lexicographic); non-arrays (and mixed array/non-array pairs)
use strict equality. -/
def areEqual (a b : LVal) : Bool :=
  match a, b with
  | .arr xs, .arr ys =>
    if xs.length = 0 ∧ ys.length = 0 then true
    else if xs.length ≠ ys.length then false
    else decide (xs.insertionSort (· ≤ ·) = ys.insertionSort (· ≤ ·))
  | a, b => a = b

/-- `EqualComparisonModel.run(inputa, inputb)` (current revision): both
empty gives `1.0`; otherwise the elements of `inputa` that occur in
`inputb` (set membership for non-arrays, `areEqual` against some array
for arrays) are counted; zero common elements gives `0`; otherwise the
count divided by the longer length.  (`uniqueToA` and `uniqueToB` are
computed by the source but unused in the returned value.) -/
def run (inputa inputb : List LVal) : ℚ :=
  if inputa.length = 0 ∧ inputb.length = 0 then 1
  else
    let setb := (inputb.filter (fun x => ¬ x.isArr)).dedup
    let commonElements := inputa.filter (fun e =>
      match e with
      | .arr xs => inputb.any (fun f => f.isArr ∧ areEqual (.arr xs) f)
      | .s x => setb.contains (.s x))
    if commonElements.length = 0 then 0
    else (commonElements.length : ℚ) / (max inputa.length inputb.length : ℚ)

/-- Count, over the first list, of elements occurring in the second (the
clean counting form of the numerator of `run`). -/
def commonCount (inputa inputb : List LVal) : Nat :=
  inputa.countP (fun e =>
    match e with
    | .arr xs => inputb.any (fun f => f.isArr ∧ areEqual (.arr xs) f)
    | .s x => inputb.contains (.s x))

/-- The agreement formula asserted by the specification: intersection
over `onlyA + onlyB + intersection`, with the intersection counted over
the first list. -/
def claimedFormula (inputa inputb : List LVal) : ℚ :=
  let int := (inputa.filter (fun e => inputb.contains e)).length
  let adis := (inputa.filter (fun e => ¬ inputb.contains e)).length
  let bdis := (inputb.filter (fun e => ¬ inputa.contains e)).length
  (int : ℚ) / ((adis : ℚ) + (bdis : ℚ) + (int : ℚ))

end EqualComparisonModel

namespace CohensComparisonModel

/-- Presence test of the configured label in one item:
`Array.isArray(p[i]) ? p[i].includes(value) : p[i] === value`. -/
def includesLabel (value : String) : LVal → Bool
  | .arr xs => xs.contains value
  | .s x => x = value

/-- Presence test at index `i` of a label list; an out-of-range read is
`undefined`, which is neither an array nor equal to the label. -/
def presentAt (value : String) (p : List LVal) (i : Nat) : Bool :=
  match p.get? i with
  | some e => includesLabel value e
  | none => false

/-- The counting loop of `calculateCohensKappa`
(`src/comparators/models/model-krippendorffs.js`, current
`CohensComparisonModel`): accumulates `(TP, TN, FN, FP, N)` over the
indices of the first list. -/
def countsLoop (value : String) (p1 p2 : List LVal) : Nat × Nat × Nat × Nat × Nat :=
  (List.range p1.length).foldl
    (fun acc i =>
      let v1 := presentAt value p1 i
      let v2 := presentAt value p2 i
      let acc' :=
        if v1 ∧ v2 then (acc.1 + 1, acc.2.1, acc.2.2.1, acc.2.2.2.1, acc.2.2.2.2)
        else if ¬ v1 ∧ ¬ v2 then (acc.1, acc.2.1 + 1, acc.2.2.1, acc.2.2.2.1, acc.2.2.2.2)
        else if v1 ∧ ¬ v2 then (acc.1, acc.2.1, acc.2.2.1 + 1, acc.2.2.2.1, acc.2.2.2.2)
        else (acc.1, acc.2.1, acc.2.2.1, acc.2.2.2.1 + 1, acc.2.2.2.2)
      (acc'.1, acc'.2.1, acc'.2.2.1, acc'.2.2.2.1, acc'.2.2.2.2 + 1))
    (0, 0, 0, 0, 0)

/-- `calculateCohensKappa(value, p1, p2)` (current revision): empty input
gives `1`; `Pe = 1` gives `1` when `P0 = 1` and else `0`; otherwise
`(P0 - Pe) / (1 - Pe)` rounded to two decimals via `Math.round`.  (The
`Response`-unwrapping map is the identity here, the inputs being data.) -/
def calculateCohensKappa (value : String) (p1 p2 : List LVal) : ℚ :=
  let c := countsLoop value p1 p2
  let TP := c.1
  let TN := c.2.1
  let FN := c.2.2.1
  let FP := c.2.2.2.1
  let N := c.2.2.2.2
  if N = 0 then 1
  else
    let P0 : ℚ := ((TP : ℚ) + TN) / N
    let Pe : ℚ := (((TP : ℚ) + FN) * ((TP : ℚ) + FP)) / ((N : ℚ) * N)
               + (((TN : ℚ) + FN) * ((TN : ℚ) + FP)) / ((N : ℚ) * N)
    if Pe = 1 then (if P0 = 1 then 1 else 0)
    else
      let kappa := (P0 - Pe) / (1 - Pe)
      (jsRound (kappa * 100) : ℚ) / 100

/-- `CohensComparisonModel.run`: string conversion is the identity on the
typed items, then `calculateCohensKappa` with the configured label. -/
def run (value : String) (inputa inputb : List LVal) : ℚ :=
  calculateCohensKappa value inputa inputb

/-- The unrounded kappa asserted by the specification at non-degenerate
inputs: `(P0 - Pe) / (1 - Pe)` over the counted contingency. -/
def claimedKappa (value : String) (p1 p2 : List LVal) : ℚ :=
  let N := p1.length
  let TP := (List.range N).countP (fun i => presentAt value p1 i ∧ presentAt value p2 i)
  let TN := (List.range N).countP (fun i => ¬ presentAt value p1 i ∧ ¬ presentAt value p2 i)
  let FN := (List.range N).countP (fun i => presentAt value p1 i ∧ ¬ presentAt value p2 i)
  let FP := (List.range N).countP (fun i => ¬ presentAt value p1 i ∧ presentAt value p2 i)
  let P0 : ℚ := ((TP : ℚ) + TN) / N
  let Pe : ℚ := (((TP : ℚ) + FN) * ((TP : ℚ) + FP) + ((TN : ℚ) + FN) * ((TN : ℚ) + FP))
                  / ((N : ℚ) * N)
  (P0 - Pe) / (1 - Pe)

end CohensComparisonModel

namespace DistanceComparisonModel

/-- JS `Array.prototype.indexOf`: index of the first occurrence, `-1`
when absent. -/
def jsIndexOf (l : List String) (x : String) : Int :=
  match l.findIdx? (fun y => y = x) with
  | some i => (i : Int)
  | none => -1

/-- The default weight function of `DistanceComparisonModel`
(`src/comparators/models/model-distance.js`): `1` for identical labels,
`1/2` when both occur in the ordered list within the configured
distance, else `0`. -/
def defaultWeightFn (distance : Nat) (orderedList : List String)
    (k l : String) : ℚ :=
  if k = l then 1
  else
    let kIndex := jsIndexOf orderedList k
    let lIndex := jsIndexOf orderedList l
    if kIndex = -1 ∨ lIndex = -1 then 0
    else if (kIndex - lIndex).natAbs ≤ distance then 1/2 else 0

/-- The `DistanceComparisonModel` object: the configured distance and
ordered list, and the weight function (defaulted when not supplied). -/
structure Model where
  distance : Nat
  orderedList : List String
  weightFn : String → String → ℚ

/-- The constructor with the default weight function. -/
def mkDefault (distance : Nat) (orderedList : List String) : Model :=
  ⟨distance, orderedList, defaultWeightFn distance orderedList⟩

/-- The inner loop of `run`: the best weight over the elements of `b`
whose value is not yet in `usedB`, together with the first element
attaining a strictly increasing running maximum (JS `bestMatch`).  The
running maximum starts at `0`, so an element is only ever selected with
positive weight. -/
def bestMatch (w : String → String → ℚ) (e : String) (b : List String)
    (usedB : List String) : ℚ × Option String :=
  b.foldl
    (fun acc f =>
      if usedB.contains f then acc
      else if w e f > acc.1 then (w e f, some f) else acc)
    (0, none)

/-- The outer loop of `run`: for each element of `a` in list order, adds
its best weight and marks the matched value of `b` as used
(`usedB.add(bestMatch)`, a value-level set). -/
def greedyLoop (w : String → String → ℚ) (a b : List String) : ℚ :=
  (a.foldl
    (fun (st : ℚ × List String) e =>
      let m := bestMatch w e b st.2
      (st.1 + m.1, match m.2 with | some f => st.2 ++ [f] | none => st.2))
    ((0 : ℚ), ([] : List String))).1

/-- `DistanceComparisonModel.run(inputa, inputb)` (current revision):
both empty gives `1.0`; the longer array (ties: the first) drives the
greedy loop; when no pair of elements has positive weight the result is
`0`; otherwise the summed best weights divided by the longer length. -/
def run (M : Model) (inputa inputb : List String) : ℚ :=
  if inputa.length = 0 ∧ inputb.length = 0 then 1
  else
    let a := if inputa.length ≥ inputb.length then inputa else inputb
    let b := if inputa.length ≥ inputb.length then inputb else inputa
    let hasAnyMatch := a.any (fun e => b.any (fun f => M.weightFn e f > 0))
    if ¬ hasAnyMatch then 0
    else greedyLoop M.weightFn a b / (a.length : ℚ)

/-- Specification-side best weight: the maximum weight of `e` against the
elements of `b` whose value is not yet consumed, floored at `0`. -/
def specBest (w : String → String → ℚ) (e : String) (b : List String)
    (used : List String) : ℚ :=
  (b.filter (fun f => ¬ used.contains f)).foldl (fun m f => max m (w e f)) 0

end DistanceComparisonModel

namespace KrippendorffsComparisonModel

/-- The Jaccard index helper of `calculateKrippendorffsAlpha`
(`src/comparators/models/model-krippendorffs.js`): intersection size
over union size of the two label sets, `1` for two empty sets. -/
def calculateJaccard (a b : List String) : ℚ :=
  let sa := a.dedup
  let sb := b.dedup
  let inter := sa.filter (fun x => sb.contains x)
  let union := (a.dedup ++ b.dedup).dedup
  if union.length = 0 then 1 else (inter.length : ℚ) / (union.length : ℚ)

/-- Preprocessing of one rater item: array-wrap, string conversion (the
identity on typed items) and filtering to the valid label set `q`. -/
def processItem (q : List String) : LVal → List String
  | .s x => if q.contains x then [x] else []
  | .arr xs => xs.filter (fun x => q.contains x)

/-- The per-item, per-label count of the single-label contingency
`r[i][label]`: the number of raters whose (single) valid label at item
`i` is the given label.  The source reads `reviewers[j][i][0]` and skips
falsy labels, so the empty-string label is never counted. -/
def countIL (rev : List (List (List String))) (i : Nat) (l : String) : Nat :=
  if l = "" then 0
  else rev.countP (fun rv => (rv.getD i []).head? = some l)

/-- `ri(i)`: the total label count of item `i`, summed over the label
list `q` (duplicates in `q` counted repeatedly, as in the source). -/
def riFun (q : List String) (rev : List (List (List String))) (i : Nat) : Nat :=
  (q.map (countIL rev i)).sum

/-- The weighted within-item disagreement of the single-label path:
pairs of label indices `k ≤ l` of `q`, diagonal pairs weighted
`c_k (c_k - 1)`, off-diagonal `2 c_k c_l`, each with disagreement weight
`1 - w(k, l)`. -/
def itemDisagreement (q : List String) (w : String → String → ℚ)
    (rev : List (List (List String))) (i : Nat) : ℚ :=
  ((List.range q.length).map (fun kx =>
    (((List.range q.length).filter (fun lx => kx ≤ lx)).map (fun lx =>
      let lk := q.getD kx ""
      let ll := q.getD lx ""
      let wt : ℚ := 1 - w lk ll
      let ck : ℚ := (countIL rev i lk : ℚ)
      let cl : ℚ := (countIL rev i ll : ℚ)
      if kx = lx then ck * (ck - 1) * wt else ck * cl * wt * 2)).sum)).sum

/-- The observed agreement `p_a` of the single-label path: one minus the
average normalized within-item disagreement (items with fewer than two
labels contribute none). -/
def singleObserved (q : List String) (w : String → String → ℚ)
    (rev : List (List (List String))) (n : Nat) : ℚ :=
  let total := ((List.range n).map (fun i =>
    let ri := riFun q rev i
    if 2 ≤ ri then itemDisagreement q w rev i / ((ri : ℚ) * ((ri : ℚ) - 1))
    else 0)).sum
  1 - total / (n : ℚ)

/-- The observed agreement `p_a` of the multi-label path: the mean over
items of the mean Jaccard index over rater pairs. -/
def multiObserved (rev : List (List (List String))) (n : Nat) : ℚ :=
  let m := rev.length
  let pairCount := ((List.range m).map (fun j =>
    ((List.range m).filter (fun k => j < k)).length)).sum
  let total := ((List.range n).map (fun i =>
    let itemSum := ((List.range m).map (fun j =>
      (((List.range m).filter (fun k => j < k)).map (fun k =>
        calculateJaccard ((rev.getD j []).getD i []) ((rev.getD k []).getD i []))).sum)).sum
    itemSum / (pairCount : ℚ))).sum
  total / (n : ℚ)

/-- The pooled count of one label over all raters and items
(`labelCounts[lbl]` of the source). -/
def labelCount (rev : List (List (List String))) (n : Nat) (l : String) : ℕ :=
  (rev.map (fun rv =>
    ((List.range n).map (fun i => (rv.getD i []).count l)).sum)).sum

/-- The total number of label assignments over all raters and items
(`totalLabelAssignments` of the source). -/
def totalAssignments (rev : List (List (List String))) (n : Nat) : ℕ :=
  (rev.map (fun rv => ((List.range n).map (fun i => (rv.getD i []).length)).sum)).sum

/-- The expected agreement `p_e`: sum over the label list `q` of the
squared pooled marginal frequency of each label. -/
def expectedAgreement (q : List String) (rev : List (List (List String)))
    (n : Nat) : ℚ :=
  let pi := fun (l : String) =>
    if totalAssignments rev n = 0 then (0 : ℚ)
    else (labelCount rev n l : ℚ) / (totalAssignments rev n : ℚ)
  (q.map (fun k => pi k * pi k)).sum

/-- Removal of the positions listed in `rem` from a rater's item list
(the descending `splice` loop of the source). -/
def removeIdxs (rv : List (List String)) (rem : List Nat) : List (List String) :=
  (rv.enum.filter (fun e => ¬ rem.contains e.1)).map (fun e => e.2)

/-- The preprocessing of `calculateKrippendorffsAlpha` together with the
observed and expected agreements: validates the rater count, filters
invalid labels, drops items with fewer than two contributing raters,
returns `none` on the `NaN` paths (no items left, or an all-empty
contingency on the single-label path), and otherwise the pair
`(p_a, p_e)`. -/
def core (labels : List String) (reviewersIn : List (List LVal))
    (w : String → String → ℚ) : Option (ℚ × ℚ) :=
  if reviewersIn.length < 2 then none
  else
    let q := labels
    let processed := reviewersIn.map (fun rv => rv.map (processItem q))
    let isMultiLabel := processed.any (fun rv => rv.any (fun it => 1 < it.length))
    let initialN := (processed.head?.getD []).length
    let itemsToRemove := (List.range initialN).filter (fun i =>
      ¬ (2 ≤ processed.countP (fun rv => 0 < (rv.getD i []).length)))
    let rev := processed.map (fun rv => removeIdxs rv itemsToRemove)
    let n := (rev.head?.getD []).length
    if n = 0 then none
    else if isMultiLabel then
      some (multiObserved rev n, expectedAgreement q rev n)
    else
      let rsum := ((List.range n).map (riFun q rev)).sum
      if rsum = 0 then none
      else if (rsum : ℚ) / (n : ℚ) = 0 then none
      else
        some (singleObserved q w rev n, expectedAgreement q rev n)

/-- `calculateKrippendorffsAlpha`: the final step over `(p_a, p_e)`: when
`1 - p_e = 0`, the result is `1.0` when `p_a = 1` and otherwise the
`NaN` sentinel; otherwise `(p_a - p_e) / (1 - p_e)` with
`Math.floor(alpha * 1000) / 1000`. -/
def calculateKrippendorffsAlpha (labels : List String)
    (reviewersIn : List (List LVal)) (w : String → String → ℚ) : Option ℚ :=
  match core labels reviewersIn w with
  | none => none
  | some pp =>
    let pa := pp.1
    let pe := pp.2
    if 1 - pe = 0 then
      if pa = 1 then some 1 else none
    else
      let alpha := (pa - pe) / (1 - pe)
      some ((⌊alpha * 1000⌋ : ℚ) / 1000)

/-- The model object: the stringified label list and the weight function
(string conversion is the identity on the typed labels). -/
structure Model where
  labels : List String
  weightFn : String → String → ℚ

/-- `KrippendorffsComparisonModel.run(inputa, inputb)`: string conversion
(the identity here), then the alpha calculation over the two raters. -/
def run (M : Model) (inputa inputb : List LVal) : Option ℚ :=
  calculateKrippendorffsAlpha M.labels [inputa, inputb] M.weightFn

/-- Rounding by truncation toward zero of the scaled value, as asserted
by the specification: `trunc(q * 1000) / 1000`. -/
def claimedRound3 (q : ℚ) : ℚ :=
  (if 0 ≤ q * 1000 then (⌊q * 1000⌋ : ℚ) else (⌈q * 1000⌉ : ℚ)) / 1000

end KrippendorffsComparisonModel

/-!
Theorems.
-/

theorem get_eq_chainNodes (r : RNode) (k : Nat) :
    Response.get r k = (Response.chainNodes r).get? k := by
  induction r generalizing k with
  | seed v =>
    cases k with
    | zero => rfl
    | succ k => simp [Response.get, Response.chainNodes]
  | resp o c rt lv g input ih =>
    cases k with
    | zero => rfl
    | succ k => simpa [Response.get, Response.chainNodes] using ih k

theorem chainNodes_length (r : RNode) :
    (Response.chainNodes r).length = r.depth + 1 := by
  induction r with
  | seed v => rfl
  | resp o c rt lv g input ih => simpa [Response.chainNodes, RNode.depth] using ih

theorem chainNodes_isResp (r : RNode) (i : Nat) (x : RNode)
    (h : (Response.chainNodes r).get? i = some x) :
    x.isResp = false ↔ i = r.depth := by
  induction r generalizing i with
  | seed v =>
    cases i with
    | zero =>
      simp [Response.chainNodes] at h
      subst h
      simp [RNode.isResp, RNode.depth]
    | succ i => simp [Response.chainNodes] at h
  | resp o c rt lv g input ih =>
    cases i with
    | zero =>
      simp [Response.chainNodes] at h
      subst h
      simp [RNode.isResp, RNode.depth]
    | succ i =>
      simp only [Response.chainNodes, List.get?_cons_succ] at h
      simpa [RNode.depth] using ih i h

/-- C7: for every response `r` and natural `k`, `r.get(k)` returns the
node exactly `k` hops back along the input chain (it agrees with list
indexing into the chain's node list), and it fails exactly when some hop
encountered before the `k` steps are exhausted is not a `Response`. -/
theorem c7_get_hops (o : Val) (c : CallerRef) (rt : Bool) (lv : Int)
    (g : Gen) (inp : RNode) (k : Nat) :
    Response.get (.resp o c rt lv g inp) k
        = (Response.chainNodes (.resp o c rt lv g inp)).get? k
    ∧ (Response.get (.resp o c rt lv g inp) k = none ↔
        ∃ i, i < k ∧ ∃ x, (Response.chainNodes (.resp o c rt lv g inp)).get? i = some x
              ∧ x.isResp = false) := by
  set r : RNode := .resp o c rt lv g inp with hr
  refine ⟨get_eq_chainNodes r k, ?_⟩
  rw [get_eq_chainNodes r k]
  constructor
  · intro hnone
    have hlen : (Response.chainNodes r).length ≤ k := by
      by_contra hlt
      push_neg at hlt
      rw [List.get?_eq_get hlt] at hnone
      exact Option.noConfusion hnone
    rw [chainNodes_length] at hlen
    have hd : r.depth < (Response.chainNodes r).length := by
      rw [chainNodes_length]; omega
    exact ⟨r.depth, by omega, _, List.get?_eq_get hd,
      (chainNodes_isResp r r.depth _ (List.get?_eq_get hd)).mpr rfl⟩
  · rintro ⟨i, hik, x, hx, hseed⟩
    have hi : i = r.depth := (chainNodes_isResp r i x hx).mp hseed
    have : (Response.chainNodes r).length ≤ k := by
      rw [chainNodes_length]; omega
    exact List.get?_eq_none.mpr this

/-- The level/root invariant asserted for a single response record:
`level = 1` exactly when `root`, and otherwise the input is a response
and `level` is its level plus one.  (Vacuous on a seed.) -/
def nodeInv : RNode → Prop
  | .seed _ => True
  | .resp _ _ rt lv _ input =>
      (lv = 1 ↔ rt = true) ∧ (rt = false → input.isResp = true ∧ lv = input.levelOf + 1)

/-- Chains produced by the system's constructive operations: seeds, and
responses built by the `Response` constructor (which every caller `run`
uses) on top of such chains. -/
inductive Built : RNode → Prop where
  | seed (v : Val) : Built (.seed v)
  | construct (o : Val) (c : CallerRef) (g : Gen) {input : RNode} :
      Built input → Built (Response.construct o c input g)

theorem built_inv (r : RNode) (h : Built r) :
    nodeInv r ∧ (r.isResp = true → 1 ≤ r.levelOf) := by
  induction h with
  | seed v => exact ⟨trivial, by simp [RNode.isResp]⟩
  | construct o c g hb ih =>
    rename_i input
    cases input with
    | seed v =>
      refine ⟨⟨by simp [Response.construct, RNode.isResp], ?_⟩, ?_⟩
      · simp [Response.construct, RNode.isResp]
      · simp [Response.construct, RNode.isResp, RNode.levelOf]
    | resp o' c' rt' lv' g' i' =>
      have hlvl : 1 ≤ (RNode.resp o' c' rt' lv' g' i').levelOf :=
        ih.2 (by simp [RNode.isResp])
      simp only [RNode.levelOf] at hlvl
      refine ⟨⟨?_, ?_⟩, ?_⟩
      · simp only [Response.construct, RNode.isResp, RNode.levelOf]
        constructor
        · intro h1
          simp at h1
          omega
        · intro h1
          simp at h1
      · intro _
        simp [Response.construct, RNode.isResp, RNode.levelOf]
      · intro _
        simp only [Response.construct, RNode.isResp, RNode.levelOf]
        omega

/-- C9 (amended): every response produced by construction (and hence by
any caller run) satisfies the level/root invariant; `Response.parse`, by
contrast, copies the serialized `root` and `level` fields verbatim onto
the parsed response, so a parsed response satisfies the invariant only
when the serialized data did. -/
theorem c9_level_root_amended :
    (∀ r : RNode, Built r → nodeInv r)
    ∧ (∀ (reg : List String) (o : Val) (cid : String) (inp : JTree) (rt : Bool) (lv : Int),
        (Response.parse reg (.node o cid inp rt lv)).rootOf = rt
        ∧ (Response.parse reg (.node o cid inp rt lv)).levelOf = lv) := by
  constructor
  · intro r h
    exact (built_inv r h).1
  · intro reg o cid inp rt lv
    cases inp with
    | prim v => exact ⟨rfl, rfl⟩
    | node o' c' i' r' l' => exact ⟨rfl, rfl⟩

/-- C9 (counterexample): parsing a header-valid snapshot node that stores
`root = true` and `level = 7` yields a response violating the claimed
invariant, because `Response.parse` copies the stored fields verbatim. -/
theorem c9_parse_counterexample :
    ¬ nodeInv (Response.parse [] (.node (.str "x") "c" (.prim (.str "s")) true 7)) := by
  intro h
  have h1 := h.1.mpr rfl
  exact absurd h1 (by decide)

/-- Witness for `c9_level_root_amended` at a depth-two constructed chain
and at a concrete parsed node. -/
theorem c9_level_root_amended_witness :
    nodeInv (Response.construct (.str "b") ⟨"B", true⟩
      (Response.construct (.str "a") ⟨"A", true⟩ (.seed (.str "s"))))
    ∧ (Response.parse [] (.node (.str "x") "c" (.prim (.str "s")) false 5)).levelOf = 5 :=
  ⟨c9_level_root_amended.1 _
      (Built.construct _ _ _ (Built.construct _ _ _ (Built.seed _))),
    (c9_level_root_amended.2 [] (.str "x") "c" (.prim (.str "s")) false 5).2⟩

theorem parseNestedResponse_eq_parse (reg : List String) (t : JTree) :
    parseNestedResponse reg t = Response.parse reg t := by
  cases t with
  | prim v => rfl
  | node o cid input rt lv =>
    simp only [parseNestedResponse]
    split
    next v heq => exact heq.symm
    next o' c' r' l' g' i' heq => rw [parseNestedAux_eq, heq]

theorem parse_toJSON_preserves (r : RNode) (reg : List String) :
    Response.toStringExpanded (Response.parse reg (Response.toJSON r))
        = Response.toStringExpanded r
    ∧ Response.outputsList (Response.parse reg (Response.toJSON r))
        = Response.outputsList r := by
  induction r with
  | seed v => exact ⟨rfl, rfl⟩
  | resp o c rt lv g input ih =>
    cases input with
    | seed v =>
      simp [Response.toJSON, Response.parse, Response.toStringExpanded,
            Response.toStringOne, Response.outputsList]
    | resp o' c' r' l' g' i' =>
      have ih1 := ih.1
      have ih2 := ih.2
      simp only [Response.toJSON] at ih1 ih2
      simp only [Response.toJSON, Response.parse, Response.toStringExpanded,
                 Response.toStringOne, Response.outputsList]
      exact ⟨by rw [ih1]; simp [Response.toStringExpanded, Response.toStringOne],
             by rw [ih2]; simp [Response.outputsList]⟩

/-- C6: writing a response chain with `writeResponses` and reading it
back with `readResponses` yields a chain whose `toStringExpanded()`
rendering and whose output value at every level equal those of the
original chain, for every registry state (so in particular when the
original callers are not registered and the reconstructed callers are
unresolved stubs). -/
theorem c6_serialization_roundtrip (o : Val) (c : CallerRef) (rt : Bool)
    (lv : Int) (g : Gen) (inp : RNode) (reg : List String) :
    ∃ d, readResponses reg (writeResponses [.resp o c rt lv g inp]) = .ok [d]
      ∧ Response.toStringExpanded d = Response.toStringExpanded (.resp o c rt lv g inp)
      ∧ Response.outputsList d = Response.outputsList (.resp o c rt lv g inp) := by
  refine ⟨Response.parse reg (Response.toJSON (.resp o c rt lv g inp)), ?_, ?_, ?_⟩
  · simp [readResponses, writeResponses, parseNestedResponse_eq_parse]
  · exact (parse_toJSON_preserves (.resp o c rt lv g inp) reg).1
  · exact (parse_toJSON_preserves (.resp o c rt lv g inp) reg).2

/-- C2 (code evaluated at the failing input): parsing a node with the
unregistered caller id `X` records the response as pending; then
constructing (and thereby registering) a `Caller` with id `X` completes
without rebinding the pending response's `caller` (which stays the parse
stub, not reference-equal to the new caller) and without clearing the
pending entry, because no code path invokes `Response.linkCaller`.  The
final conjunct shows that `Response.linkCaller` itself would have
performed the rebinding the specification asserts. -/
theorem c2_registration_does_not_link :
    let t : JTree := .node (.str "o") "X" (.prim (.str "s")) true 1
    let ps := Response.parseS t LinkState.empty
    ∃ c s2, Caller.construct "X" ps.2 = .ok (c, s2)
      ∧ (s2.heap.get? ps.1).map RespCell.caller ≠ some c
      ∧ (s2.pendingCallerLookups.find? (fun e => e.1 = "X")).isSome = true
      ∧ ((Response.linkCallerS c s2).heap.get? ps.1).map RespCell.caller = some c := by
  refine ⟨⟨"X", 1⟩, _, rfl, ?_, ?_, ?_⟩
  · decide
  · decide
  · decide

/-- Pure form of a successful `Comparator.transform` run: the index
built by assigning `set[key e] = e` left to right. -/
def transformP (l : List RNode) : List (String × RNode) :=
  l.foldl (fun m e => Comparator.objSet m (keyOf e) e) []

namespace Comparator

theorem objGet_nil (k' : String) : objGet [] k' = none := rfl

theorem objGet_cons (a : String × RNode) (tl : List (String × RNode)) (k' : String) :
    objGet (a :: tl) k' = if a.1 = k' then some a.2 else objGet tl k' := by
  by_cases h : a.1 = k' <;> simp [objGet, List.find?_cons, h]

theorem objSet_nil (k : String) (v : RNode) : objSet [] k v = [(k, v)] := rfl

theorem objSet_cons_pos (a : String × RNode) (tl : List (String × RNode))
    (k : String) (v : RNode) (h : a.1 = k) :
    objSet (a :: tl) k v = (k, v) :: tl.map (fun e => if e.1 = k then (k, v) else e) := by
  unfold objSet
  simp [List.find?_cons, h]

theorem objSet_cons_neg (a : String × RNode) (tl : List (String × RNode))
    (k : String) (v : RNode) (h : ¬ a.1 = k) :
    objSet (a :: tl) k v = a :: objSet tl k v := by
  unfold objSet
  by_cases hs : (tl.find? (fun e => e.1 = k)).isSome
  · simp [List.find?_cons, h, hs]
  · simp [List.find?_cons, h, hs]

theorem objGet_map_replace_ne (tl : List (String × RNode)) (k k' : String)
    (v : RNode) (h : ¬ k' = k) :
    objGet (tl.map (fun e => if e.1 = k then (k, v) else e)) k' = objGet tl k' := by
  induction tl with
  | nil => rfl
  | cons a tl ih =>
    by_cases hak : a.1 = k
    · have h1 : ¬ ((k : String) = k') := fun hh => h hh.symm
      have h2 : ¬ (a.1 = k') := fun hh => h (by rw [← hh, hak])
      simp only [List.map_cons, hak, if_pos]
      rw [objGet_cons, objGet_cons, if_neg h1, if_neg h2, ih]
    · simp only [List.map_cons, hak, if_neg, if_false]
      rw [objGet_cons, objGet_cons]
      by_cases h2 : a.1 = k'
      · simp [h2]
      · simp [h2, ih]

theorem objGet_objSet (m : List (String × RNode)) (k k' : String) (v : RNode) :
    objGet (objSet m k v) k' = if k' = k then some v else objGet m k' := by
  induction m with
  | nil =>
    rw [objSet_nil, objGet_cons, objGet_nil]
    by_cases h : k' = k
    · simp [h]
    · simp [h, show ¬ ((k : String) = k') from fun hh => h hh.symm]
  | cons a tl ih =>
    by_cases hak : a.1 = k
    · rw [objSet_cons_pos a tl k v hak, objGet_cons]
      by_cases hk' : k' = k
      · simp [hk']
      · have h1 : ¬ ((k : String) = k') := fun hh => hk' hh.symm
        have h2 : ¬ (a.1 = k') := fun hh => hk' (by rw [← hh, hak])
        rw [if_neg h1, objGet_map_replace_ne tl k k' v hk', if_neg hk',
            objGet_cons, if_neg h2]
    · rw [objSet_cons_neg a tl k v hak, objGet_cons, objGet_cons]
      by_cases h2 : a.1 = k'
      · have hk' : ¬ k' = k := fun hh => hak (by rw [h2, hh])
        simp [h2, hk']
      · rw [if_neg h2, if_neg h2, ih]

theorem keys_objSet (m : List (String × RNode)) (k : String) (v : RNode) :
    (objSet m k v).map (fun e => e.1) =
      if (m.find? (fun e => e.1 = k)).isSome then m.map (fun e => e.1)
      else m.map (fun e => e.1) ++ [k] := by
  unfold objSet
  by_cases hs : (m.find? (fun e => e.1 = k)).isSome
  · rw [if_pos hs, if_pos hs, List.map_map]
    refine List.map_congr_left ?_
    intro e _
    by_cases he : e.1 = k <;> simp [he]
  · rw [if_neg hs, if_neg hs]
    simp

theorem mem_objSet (m : List (String × RNode)) (k : String) (v : RNode)
    (x : String × RNode) (hx : x ∈ objSet m k v) : x ∈ m ∨ x = (k, v) := by
  unfold objSet at hx
  by_cases hs : (m.find? (fun e => e.1 = k)).isSome
  · rw [if_pos hs] at hx
    obtain ⟨y, hy, hxy⟩ := List.mem_map.mp hx
    by_cases hyk : y.1 = k
    · right; simp [hyk] at hxy; exact hxy.symm
    · left; simp [hyk] at hxy; exact hxy ▸ hy
  · rw [if_neg hs] at hx
    rcases List.mem_append.mp hx with h | h
    · exact Or.inl h
    · exact Or.inr (List.mem_singleton.mp h)

end Comparator

theorem transformP_concat (l : List RNode) (e : RNode) :
    transformP (l ++ [e]) = Comparator.objSet (transformP l) (keyOf e) e := by
  simp [transformP, List.foldl_append]

theorem transformP_keys_nodup (l : List RNode) :
    ((transformP l).map (fun e => e.1)).Nodup := by
  induction l using List.reverseRecOn with
  | nil => simp [transformP]
  | append_singleton l e ih =>
    rw [transformP_concat, Comparator.keys_objSet]
    by_cases hs : (((transformP l).find? (fun x => x.1 = keyOf e)).isSome)
    · simpa [hs] using ih
    · rw [if_neg hs]
      have hnot : keyOf e ∉ (transformP l).map (fun x => x.1) := by
        intro hk
        obtain ⟨y, hy, hky⟩ := List.mem_map.mp hk
        have := List.find?_eq_none.mp (by
          rcases h : (transformP l).find? (fun x => x.1 = keyOf e) with _ | z
          · rfl
          · exact absurd (by rw [h]; rfl) hs) y hy
        simp [hky] at this
      simp [List.nodup_append, ih, hnot]

theorem transformP_mem (l : List RNode) (x : String × RNode)
    (hx : x ∈ transformP l) : x.1 = keyOf x.2 ∧ x.2 ∈ l := by
  induction l using List.reverseRecOn with
  | nil => simp [transformP] at hx
  | append_singleton l e ih =>
    rw [transformP_concat] at hx
    rcases Comparator.mem_objSet _ _ _ _ hx with h | h
    · exact ⟨(ih h).1, List.mem_append.mpr (Or.inl (ih h).2)⟩
    · subst h
      exact ⟨rfl, by simp⟩

theorem objGet_transformP (l : List RNode) (k : String) :
    Comparator.objGet (transformP l) k = lastWithKey l k := by
  induction l using List.reverseRecOn with
  | nil => simp [transformP, lastWithKey, Comparator.objGet]
  | append_singleton l e ih =>
    rw [transformP_concat, Comparator.objGet_objSet]
    unfold lastWithKey
    by_cases hk : k = keyOf e
    · rw [if_pos hk]
      have : (l ++ [e]).filter (fun x => keyOf x = k) =
          (l.filter (fun x => keyOf x = k)) ++ [e] := by
        simp [List.filter_append, hk.symm]
      rw [this]
      exact (List.getLast?_concat _).symm
    · rw [if_neg hk]
      have h2 : ¬ keyOf e = k := fun hh => hk hh.symm
      have : (l ++ [e]).filter (fun x => keyOf x = k) =
          l.filter (fun x => keyOf x = k) := by
        simp [List.filter_append, h2]
      rw [this, ih]
      rfl

theorem objGet_of_mem_nodup (m : List (String × RNode)) (k : String) (x : RNode)
    (hnd : (m.map (fun e => e.1)).Nodup) (hm : (k, x) ∈ m) :
    Comparator.objGet m k = some x := by
  induction m with
  | nil => simp at hm
  | cons a tl ih =>
    rw [List.map_cons, List.nodup_cons] at hnd
    rcases List.mem_cons.mp hm with h | h
    · subst h
      rw [Comparator.objGet_cons, if_pos rfl]
    · have ha : ¬ a.1 = k := by
        intro hak
        refine hnd.1 ?_
        rw [hak]
        exact List.mem_map.mpr ⟨(k, x), h, rfl⟩
      rw [Comparator.objGet_cons, if_neg ha]
      exact ih hnd.2 h

theorem transform_ok_aux (l : List RNode) (h : l.all RNode.isResp = true) :
    ∀ init : List (String × RNode),
      l.foldlM
        (fun m e =>
          if e.isResp then
            (Except.ok (Comparator.objSet m (Response.rootInput e).toJSString e) :
              Except String (List (String × RNode)))
          else
            Except.error "List contains non-response type")
        init
      = .ok (l.foldl (fun m e => Comparator.objSet m (keyOf e) e) init) := by
  induction l with
  | nil => intro init; rfl
  | cons e tl ih =>
    intro init
    simp only [List.all_cons, Bool.and_eq_true] at h
    simp only [List.foldlM_cons, List.foldl_cons, h.1, if_pos]
    exact ih h.2 _

theorem transform_ok (l : List RNode) (h : l.all RNode.isResp = true) :
    Comparator.transform l = .ok (transformP l) :=
  transform_ok_aux l h []

theorem construct_ok (a b : RNode) (p : Comparator)
    (h : Comparator.construct a b = .ok p) : p = ⟨a, b⟩ := by
  unfold Comparator.construct at h
  by_cases h1 : ¬ (a.isResp ∧ b.isResp)
  · simp [h1] at h
  · rw [if_neg h1] at h
    by_cases h2 : Response.rootInput a ≠ Response.rootInput b
    · simp [h2] at h
    · rw [if_neg h2] at h
      exact (Except.ok.injEq _ _).mp h |>.symm

theorem matchStep_none (bset : List (String × RNode)) (res : List Comparator)
    (e : String × RNode) (h : Comparator.objGet bset e.1 = none) :
    Comparator.matchStep bset res e = pure res := by
  unfold Comparator.matchStep
  rw [h]

theorem matchStep_some (bset : List (String × RNode)) (res : List Comparator)
    (e : String × RNode) (vb : RNode) (h : Comparator.objGet bset e.1 = some vb) :
    Comparator.matchStep bset res e =
      (do
        let c ← Comparator.construct e.2 vb
        pure (res ++ [c])) := by
  unfold Comparator.matchStep
  rw [h]

theorem foldPairs (bset : List (String × RNode)) (m : List (String × RNode)) :
    ∀ (acc res : List Comparator),
      m.foldlM (Comparator.matchStep bset) acc = .ok res →
      ∃ tail, res = acc ++ tail
        ∧ tail.map (fun p => keyOf p.a)
            = (m.filter (fun e => (Comparator.objGet bset e.1).isSome)).map
                (fun e => keyOf e.2)
        ∧ ∀ p ∈ tail, ∃ k, (k, p.a) ∈ m ∧ Comparator.objGet bset k = some p.b := by
  induction m with
  | nil =>
    intro acc res h
    simp only [List.foldlM_nil] at h
    exact ⟨[], by simpa using (Except.ok.injEq _ _).mp h |>.symm, by simp, by simp⟩
  | cons e tl ih =>
    intro acc res h
    simp only [List.foldlM_cons] at h
    rcases hbe : Comparator.objGet bset e.1 with _ | vb
    · rw [matchStep_none bset acc e hbe] at h
      obtain ⟨tail, h1, h2, h3⟩ := ih acc res h
      refine ⟨tail, h1, ?_, ?_⟩
      · simpa [List.filter_cons, hbe] using h2
      · intro p hp
        obtain ⟨k, hk1, hk2⟩ := h3 p hp
        exact ⟨k, List.mem_cons_of_mem _ hk1, hk2⟩
    · rw [matchStep_some bset acc e vb hbe] at h
      rcases hc : Comparator.construct e.2 vb with err | c
      · rw [hc] at h
        exact Except.noConfusion h
      · rw [hc] at h
        obtain ⟨tail, h1, h2, h3⟩ := ih (acc ++ [c]) res h
        have hc2 := construct_ok _ _ _ hc
        refine ⟨c :: tail, by simpa using h1, ?_, ?_⟩
        · subst hc2
          simp [List.filter_cons, hbe, h2]
        · intro p hp
          rcases List.mem_cons.mp hp with h | h
          · subst h
            subst hc2
            exact ⟨e.1, List.mem_cons_self _ _, hbe⟩
          · obtain ⟨k, hk1, hk2⟩ := h3 p h
            exact ⟨k, List.mem_cons_of_mem _ hk1, hk2⟩

/-- C10: a successful `Comparator.match` yields at most one pair per
distinct root-input string: the pairs carry pairwise-distinct root-input
keys, and the responses of each pair are exactly the last response of
each input list whose root input coerces to that key (earlier responses
sharing the key having been overwritten in the index). -/
theorem c10_match_last_wins (a b : List RNode) (pairs : List Comparator)
    (ha : a.all RNode.isResp = true) (hb : b.all RNode.isResp = true)
    (hm : Comparator.matchResponses a b = .ok pairs) :
    (pairs.map (fun p => keyOf p.a)).Nodup
    ∧ ∀ p ∈ pairs, lastWithKey a (keyOf p.a) = some p.a
        ∧ lastWithKey b (keyOf p.a) = some p.b := by
  unfold Comparator.matchResponses at hm
  rw [transform_ok a ha, transform_ok b hb] at hm
  have hm' : (transformP a).foldlM (Comparator.matchStep (transformP b)) []
      = .ok pairs := hm
  obtain ⟨tail, h1, h2, h3⟩ := foldPairs (transformP b) (transformP a) [] pairs hm'
  simp only [List.nil_append] at h1
  subst h1
  constructor
  · rw [h2]
    have hsub : ((transformP a).filter
        (fun e => (Comparator.objGet (transformP b) e.1).isSome)).map (fun e => keyOf e.2)
        = ((transformP a).filter
            (fun e => (Comparator.objGet (transformP b) e.1).isSome)).map (fun e => e.1) := by
      refine List.map_congr_left ?_
      intro e he
      exact ((transformP_mem a e (List.mem_of_mem_filter he)).1).symm
    rw [hsub]
    exact (transformP_keys_nodup a).sublist
      (List.Sublist.map _ (List.filter_sublist _))
  · intro p hp
    obtain ⟨k, hk1, hk2⟩ := h3 p hp
    have hmem := transformP_mem a (k, p.a) hk1
    have hkey : k = keyOf p.a := hmem.1
    subst hkey
    refine ⟨?_, ?_⟩
    · rw [← objGet_transformP]
      exact objGet_of_mem_nodup _ _ _ (transformP_keys_nodup a) hk1
    · rw [← objGet_transformP]
      exact hk2

/-- Witness for `c10_match_last_wins`: the first list holds two
responses rooted at the same seed `s`; only the later one is paired. -/
theorem c10_match_last_wins_witness :
    lastWithKey
      [RNode.resp (.str "x") ⟨"A", true⟩ true 1 .programmatic (.seed (.str "s")),
       RNode.resp (.str "y") ⟨"A", true⟩ true 1 .programmatic (.seed (.str "s"))]
      (keyOf (RNode.resp (.str "y") ⟨"A", true⟩ true 1 .programmatic (.seed (.str "s"))))
      = some (RNode.resp (.str "y") ⟨"A", true⟩ true 1 .programmatic (.seed (.str "s"))) := by
  have h := c10_match_last_wins
    [RNode.resp (.str "x") ⟨"A", true⟩ true 1 .programmatic (.seed (.str "s")),
     RNode.resp (.str "y") ⟨"A", true⟩ true 1 .programmatic (.seed (.str "s"))]
    [RNode.resp (.str "z") ⟨"B", true⟩ true 1 .programmatic (.seed (.str "s"))]
    [⟨RNode.resp (.str "y") ⟨"A", true⟩ true 1 .programmatic (.seed (.str "s")),
      RNode.resp (.str "z") ⟨"B", true⟩ true 1 .programmatic (.seed (.str "s"))⟩]
    (by decide) (by decide) (by rfl)
  exact (h.2 ⟨RNode.resp (.str "y") ⟨"A", true⟩ true 1 .programmatic (.seed (.str "s")),
    RNode.resp (.str "z") ⟨"B", true⟩ true 1 .programmatic (.seed (.str "s"))⟩
    (by simp)).1

/-- C1: `Comparator.compareMultiple` rejects a model whose
`isMultipleComparison` flag is false; after pairing the lists via
`match`, it fails when zero pairs result; and when it succeeds, the value
is `model.run` applied exactly to the aligned output lists extracted from
the matched pairs (never to the outputs of the raw input lists). -/
theorem c1_compareMultiple_spec (ra rb : List RNode) (model : ComparatorModel) :
    (model.isMultipleComparison = false →
      Comparator.compareMultiple ra rb model
        = .error "This model is not designed for multiple comparisons, use run instead")
    ∧ (model.isMultipleComparison = true → ra.all RNode.isResp = true →
        rb.all RNode.isResp = true →
        Comparator.matchResponses ra rb = .ok [] →
        Comparator.compareMultiple ra rb model
          = .error "No matching responses found between the two lists")
    ∧ (∀ pairs, model.isMultipleComparison = true → ra.all RNode.isResp = true →
        rb.all RNode.isResp = true →
        Comparator.matchResponses ra rb = .ok pairs → pairs ≠ [] →
        Comparator.compareMultiple ra rb model
          = .ok (model.run (pairs.map (fun p => p.a.outputOf))
                           (pairs.map (fun p => p.b.outputOf)))) := by
  refine ⟨?_, ?_, ?_⟩
  · intro h
    simp [Comparator.compareMultiple, h]
  · intro h1 h2 h3 h4
    simp only [Comparator.compareMultiple, h1, h2, h3, h4]
    rfl
  · intro pairs h1 h2 h3 h4 h5
    simp only [Comparator.compareMultiple, h1, h2, h3, h4]
    show (if pairs.length = 0 then
        (Except.error "No matching responses found between the two lists" :
          Except String ℚ)
      else pure (model.run (pairs.map (fun p => p.a.outputOf))
                           (pairs.map (fun p => p.b.outputOf)))) = _
    rw [if_neg (by simpa [List.length_eq_zero] using h5)]
    rfl

/-- Witness for `c1_compareMultiple_spec`: one pair results from lists of
sizes one and two, and the model receives the aligned pair outputs
`["x"]` and `["y"]`, not the raw output lists. -/
theorem c1_compareMultiple_spec_witness :
    Comparator.compareMultiple
      [RNode.resp (.str "x") ⟨"A", true⟩ true 1 .programmatic (.seed (.str "s"))]
      [RNode.resp (.str "z") ⟨"B", true⟩ true 1 .programmatic (.seed (.str "t")),
       RNode.resp (.str "y") ⟨"B", true⟩ true 1 .programmatic (.seed (.str "s"))]
      ⟨true, fun xs _ => (xs.length : ℚ)⟩
    = .ok ((⟨true, fun xs _ => (xs.length : ℚ)⟩ : ComparatorModel).run
        [.str "x"] [.str "y"]) := by
  have h := (c1_compareMultiple_spec
    [RNode.resp (.str "x") ⟨"A", true⟩ true 1 .programmatic (.seed (.str "s"))]
    [RNode.resp (.str "z") ⟨"B", true⟩ true 1 .programmatic (.seed (.str "t")),
     RNode.resp (.str "y") ⟨"B", true⟩ true 1 .programmatic (.seed (.str "s"))]
    ⟨true, fun xs _ => (xs.length : ℚ)⟩).2.2
    [⟨RNode.resp (.str "x") ⟨"A", true⟩ true 1 .programmatic (.seed (.str "s")),
      RNode.resp (.str "y") ⟨"B", true⟩ true 1 .programmatic (.seed (.str "s"))⟩]
    rfl (by decide) (by decide) (by rfl) (by simp)
  exact h

/-- C3 (amended): `EqualComparisonModel.run` returns `1.0` when both
arrays are empty, `0.0` when no element of the first occurs in the
second, and otherwise the count of elements of the first array occurring
in the second divided by the longer length (not the
`intersection / (onlyA + onlyB + intersection)` ratio asserted by the
specification). -/
theorem c3_equal_run_amended (A B : List LVal) :
    EqualComparisonModel.run A B =
      if A = [] ∧ B = [] then 1
      else if EqualComparisonModel.commonCount A B = 0 then 0
      else (EqualComparisonModel.commonCount A B : ℚ) / (max A.length B.length : ℚ) := by
  have hpred : (fun (e : LVal) =>
      (match e with
       | .arr xs => B.any (fun f => f.isArr ∧ EqualComparisonModel.areEqual (.arr xs) f)
       | .s x => ((B.filter (fun x => ¬ x.isArr)).dedup).contains (.s x) : Bool))
      = (fun (e : LVal) =>
         (match e with
          | .arr xs => B.any (fun f => f.isArr ∧ EqualComparisonModel.areEqual (.arr xs) f)
          | .s x => B.contains (.s x) : Bool)) := by
    funext e
    cases e with
    | arr xs => rfl
    | s x =>
      show ((B.filter (fun x => ¬ x.isArr)).dedup).contains (.s x) = B.contains (.s x)
      simp only [List.contains]
      by_cases hmem : (LVal.s x) ∈ B
      · have h1 : (LVal.s x) ∈ (B.filter (fun x => ¬ x.isArr)).dedup := by
          rw [List.mem_dedup, List.mem_filter]
          exact ⟨hmem, rfl⟩
        rw [List.elem_iff.mpr h1, List.elem_iff.mpr hmem]
      · have h1 : (LVal.s x) ∉ (B.filter (fun x => ¬ x.isArr)).dedup := by
          rw [List.mem_dedup, List.mem_filter]
          exact fun hc => hmem hc.1
        have e1 : List.elem (LVal.s x) ((B.filter (fun x => ¬ x.isArr)).dedup) = false := by
          rw [Bool.eq_false_iff]
          exact fun hc => h1 (List.elem_iff.mp hc)
        have e2 : List.elem (LVal.s x) B = false := by
          rw [Bool.eq_false_iff]
          exact fun hc => hmem (List.elem_iff.mp hc)
        rw [e1, e2]
  simp only [EqualComparisonModel.run, EqualComparisonModel.commonCount,
    List.countP_eq_length_filter]
  rw [hpred]
  by_cases h1 : A.length = 0 ∧ B.length = 0
  · have h1' : A = [] ∧ B = [] :=
      ⟨List.length_eq_zero.mp h1.1, List.length_eq_zero.mp h1.2⟩
    rw [if_pos h1, if_pos h1']
  · have h1' : ¬ (A = [] ∧ B = []) := by
      intro hc
      exact h1 ⟨by simp [hc.1], by simp [hc.2]⟩
    rw [if_neg h1, if_neg h1']

/-- C3 (counterexample): at `A = ["x","y"]`, `B = ["x","z"]` the source
returns `1/2` (one common element over the longer length two), while the
formula asserted by the specification yields `1/3`. -/
theorem c3_equal_run_counterexample :
    EqualComparisonModel.run [.s "x", .s "y"] [.s "x", .s "z"] = 1/2
    ∧ EqualComparisonModel.claimedFormula [.s "x", .s "y"] [.s "x", .s "z"] = 1/3
    ∧ (1/2 : ℚ) ≠ 1/3 := by
  refine ⟨?_, ?_, by norm_num⟩
  · show ((1 : ℕ) : ℚ) / ((max 2 2 : ℕ) : ℚ) = 1/2
    norm_num
  · show ((1 : ℕ) : ℚ) / (((1 : ℕ) : ℚ) + ((1 : ℕ) : ℚ) + ((1 : ℕ) : ℚ)) = 1/3
    norm_num

namespace CohensComparisonModel

/-- The behaviour of Cohen's kappa as amended: the counted 2x2
contingency, `1` on empty input, the degenerate `Pe = 1` rule, and the
quotient rounded to two decimals via JS `Math.round`. -/
def kappaAmendedSpec (value : String) (p1 p2 : List LVal) : ℚ :=
  let N := p1.length
  let TP := (List.range N).countP (fun i => presentAt value p1 i ∧ presentAt value p2 i)
  let TN := (List.range N).countP (fun i => ¬ presentAt value p1 i ∧ ¬ presentAt value p2 i)
  let FN := (List.range N).countP (fun i => presentAt value p1 i ∧ ¬ presentAt value p2 i)
  let FP := (List.range N).countP (fun i => ¬ presentAt value p1 i ∧ presentAt value p2 i)
  if N = 0 then 1
  else
    let P0 : ℚ := ((TP : ℚ) + TN) / N
    let Pe : ℚ := (((TP : ℚ) + FN) * ((TP : ℚ) + FP)) / ((N : ℚ) * N)
               + (((TN : ℚ) + FN) * ((TN : ℚ) + FP)) / ((N : ℚ) * N)
    if Pe = 1 then (if P0 = 1 then 1 else 0)
    else (jsRound ((P0 - Pe) / (1 - Pe) * 100) : ℚ) / 100

theorem countsLoop_eval (value : String) (p1 p2 : List LVal) :
    countsLoop value p1 p2 =
      ((List.range p1.length).countP (fun i => presentAt value p1 i ∧ presentAt value p2 i),
       (List.range p1.length).countP (fun i => ¬ presentAt value p1 i ∧ ¬ presentAt value p2 i),
       (List.range p1.length).countP (fun i => presentAt value p1 i ∧ ¬ presentAt value p2 i),
       (List.range p1.length).countP (fun i => ¬ presentAt value p1 i ∧ presentAt value p2 i),
       p1.length) := by
  unfold countsLoop
  generalize p1.length = N
  induction N with
  | zero => rfl
  | succ n ih =>
    rw [List.range_succ, List.foldl_append, ih]
    simp only [List.foldl_cons, List.foldl_nil, List.countP_append,
      List.countP_cons, List.countP_nil]
    by_cases h1 : presentAt value p1 n = true <;>
      by_cases h2 : presentAt value p2 n = true <;>
        simp [h1, h2]

end CohensComparisonModel

/-- C4 (amended): for equal-length label sequences,
`CohensComparisonModel.run` computes `P0` and `Pe` over the 2x2
presence/absence contingency for the configured label and returns
`(P0 - Pe) / (1 - Pe)` rounded to two decimals via JS `Math.round` (a
rounding step the specification omits); when `Pe = 1` it returns `1` if
`P0 = 1` and `0` otherwise; when `N = 0` it returns `1`. -/
theorem c4_cohens_kappa_amended (value : String) (p1 p2 : List LVal)
    (h : p1.length = p2.length) :
    CohensComparisonModel.run value p1 p2
      = CohensComparisonModel.kappaAmendedSpec value p1 p2 := by
  unfold CohensComparisonModel.run CohensComparisonModel.calculateCohensKappa
    CohensComparisonModel.kappaAmendedSpec
  rw [CohensComparisonModel.countsLoop_eval]

/-- Witness for `c4_cohens_kappa_amended` at the one-item sequences
`["v"]`, `["v"]`. -/
theorem c4_cohens_kappa_amended_witness :
    CohensComparisonModel.run "v" [.s "v"] [.s "v"]
      = CohensComparisonModel.kappaAmendedSpec "v" [.s "v"] [.s "v"] :=
  c4_cohens_kappa_amended "v" [.s "v"] [.s "v"] rfl

/-- C4 (counterexample): at label `v` with sequences
`[v, v, v, x, x]` and `[v, v, x, x, v]` the contingency is
`TP = 2, TN = 1, FN = 1, FP = 1, N = 5`, the unrounded kappa is `1/6`,
and the source returns the rounded `0.17 ≠ 1/6` — so `run` does not
return `(P0 - Pe) / (1 - Pe)` as the specification states. -/
theorem c4_cohens_kappa_counterexample :
    CohensComparisonModel.run "v"
        [.s "v", .s "v", .s "v", .s "x", .s "x"]
        [.s "v", .s "v", .s "x", .s "x", .s "v"] = 17/100
    ∧ CohensComparisonModel.claimedKappa "v"
        [.s "v", .s "v", .s "v", .s "x", .s "x"]
        [.s "v", .s "v", .s "x", .s "x", .s "v"] = 1/6
    ∧ (17/100 : ℚ) ≠ 1/6 := by
  refine ⟨?_, ?_, by norm_num⟩
  · have hc : CohensComparisonModel.countsLoop "v"
        [.s "v", .s "v", .s "v", .s "x", .s "x"]
        [.s "v", .s "v", .s "x", .s "x", .s "v"] = (2, 1, 1, 1, 5) := by decide
    simp only [CohensComparisonModel.run, CohensComparisonModel.calculateCohensKappa, hc]
    norm_num [jsRound]
  · show ((((2 : ℕ) : ℚ) + ((1 : ℕ) : ℚ)) / ((5 : ℕ) : ℚ)
        - ((((2 : ℕ) : ℚ) + ((1 : ℕ) : ℚ)) * (((2 : ℕ) : ℚ) + ((1 : ℕ) : ℚ))
            + (((1 : ℕ) : ℚ) + ((1 : ℕ) : ℚ)) * (((1 : ℕ) : ℚ) + ((1 : ℕ) : ℚ)))
          / (((5 : ℕ) : ℚ) * ((5 : ℕ) : ℚ)))
      / (1 - ((((2 : ℕ) : ℚ) + ((1 : ℕ) : ℚ)) * (((2 : ℕ) : ℚ) + ((1 : ℕ) : ℚ))
            + (((1 : ℕ) : ℚ) + ((1 : ℕ) : ℚ)) * (((1 : ℕ) : ℚ) + ((1 : ℕ) : ℚ)))
          / (((5 : ℕ) : ℚ) * ((5 : ℕ) : ℚ))) = 1/6
    norm_num

namespace DistanceComparisonModel

theorem bestMatch_fst (w : String → String → ℚ) (e : String) (b : List String)
    (used : List String) :
    ∀ acc : ℚ × Option String,
      (b.foldl
        (fun acc f =>
          if used.contains f then acc
          else if w e f > acc.1 then (w e f, some f) else acc) acc).1
      = (b.filter (fun f => ¬ used.contains f)).foldl (fun m f => max m (w e f)) acc.1 := by
  induction b with
  | nil => intro acc; rfl
  | cons f tl ih =>
    intro acc
    rw [List.foldl_cons, List.filter_cons]
    by_cases hu : used.contains f = true
    · have hmem : f ∈ used := List.elem_iff.mp hu
      have hfilt : ¬ ((decide (¬ used.contains f = true)) = true) := by simp [hmem]
      rw [if_pos hu, if_neg hfilt]
      exact ih acc
    · have hnmem : f ∉ used := fun hc => hu (List.elem_iff.mpr hc)
      have hfilt : (decide (¬ used.contains f = true)) = true := by simp [hnmem]
      rw [if_neg hu, if_pos hfilt, List.foldl_cons]
      by_cases hw : w e f > acc.1
      · rw [if_pos hw, ih (w e f, some f)]
        rw [show ((w e f, some f) : ℚ × Option String).1 = max acc.1 (w e f) from
          (max_eq_right (le_of_lt hw)).symm]
      · rw [if_neg hw, ih acc]
        rw [show (max acc.1 (w e f)) = acc.1 from max_eq_left (le_of_not_lt hw)]

theorem bestMatch_nonpos (w : String → String → ℚ) (e : String) (b : List String)
    (used : List String) (h : ∀ f ∈ b, ¬ w e f > 0) :
    bestMatch w e b used = (0, none) := by
  unfold bestMatch
  induction b with
  | nil => rfl
  | cons f tl ih =>
    rw [List.foldl_cons]
    have hf := h f (List.mem_cons_self _ _)
    have hstep : (if used.contains f then ((0 : ℚ), (none : Option String))
        else if w e f > (0 : ℚ) then (w e f, some f) else (0, none)) = (0, none) := by
      by_cases hu : used.contains f <;> simp [hu, hf]
    rw [show (if used.contains f = true then ((0 : ℚ), (none : Option String))
        else if w e f > ((0 : ℚ), (none : Option String)).1 then (w e f, some f)
        else ((0 : ℚ), (none : Option String))) = (0, none) from hstep]
    exact ih (fun f' hf' => h f' (List.mem_cons_of_mem _ hf'))

theorem greedyLoop_nonpos (w : String → String → ℚ) (a b : List String)
    (h : ∀ e ∈ a, ∀ f ∈ b, ¬ w e f > 0) :
    greedyLoop w a b = 0 := by
  unfold greedyLoop
  suffices haux : ∀ st : ℚ × List String,
      (a.foldl
        (fun (st : ℚ × List String) e =>
          let m := bestMatch w e b st.2
          (st.1 + m.1, match m.2 with | some f => st.2 ++ [f] | none => st.2)) st).1
      = st.1 by
    rw [haux ((0 : ℚ), ([] : List String))]
  induction a with
  | nil => intro st; rfl
  | cons e tl ih =>
    intro st
    rw [List.foldl_cons]
    have hb := bestMatch_nonpos w e b st.2 (h e (List.mem_cons_self _ _))
    simp only [hb]
    have := ih (fun e' he' => h e' (List.mem_cons_of_mem _ he'))
      (st.1 + (0 : ℚ), st.2)
    simpa using this

/-- C8 (amended): both arrays empty yields `1.0`; otherwise
`DistanceComparisonModel.run` takes the longer array (ties: the first
argument) and returns the greedy loop's summed weights over its length —
the no-positive-weight early return of the source never changes the
value.  The greedy loop processes the longer array in list order (so the
result is order-dependent), and each element receives the best weight
over the elements of the shorter array whose label value has not yet
been consumed — consuming a value blocks all duplicates of that value,
as the best-weight bookkeeping is by value (last conjunct). -/
theorem c8_distance_run_amended :
    (∀ (M : Model) (inputa inputb : List String),
      run M inputa inputb =
        if inputa.length = 0 ∧ inputb.length = 0 then 1
        else
          (greedyLoop M.weightFn
              (if inputa.length ≥ inputb.length then inputa else inputb)
              (if inputa.length ≥ inputb.length then inputb else inputa))
            / ((if inputa.length ≥ inputb.length then inputa else inputb).length : ℚ))
    ∧ (∀ (w : String → String → ℚ) (e : String) (b used : List String),
        (bestMatch w e b used).1 = specBest w e b used) := by
  constructor
  · intro M inputa inputb
    unfold run
    by_cases h0 : inputa.length = 0 ∧ inputb.length = 0
    · rw [if_pos h0, if_pos h0]
    · rw [if_neg h0, if_neg h0]
      by_cases hm : (if inputa.length ≥ inputb.length then inputa else inputb).any
          (fun e => ((if inputa.length ≥ inputb.length then inputb else inputa).any
            (fun f => M.weightFn e f > 0))) = true
      · rw [if_neg (by simp [hm])]
      · rw [if_pos (by simp_all)]
        rw [greedyLoop_nonpos]
        · rw [zero_div]
        · intro e he f hf
          simp only [Bool.not_eq_true, List.any_eq_false, decide_eq_true_eq] at hm
          exact hm e he f hf
  · intro w e b used
    unfold bestMatch specBest
    exact bestMatch_fst w e b used (0, none)

/-- C8 (counterexample): with the default model over
`["x", "y", "z"]` and distance `1`, permuting the longer array changes
the result (`run(["y","x"], ["x"]) = 1/4` but
`run(["x","y"], ["x"]) = 1/2`), refuting order-independence; and
`run(["x","x"], ["x","x"]) = 1/2`, not `1`, because consuming the value
`"x"` blocks its duplicate — elements of B are not individually usable
once. -/
theorem c8_distance_run_counterexample :
    run (mkDefault 1 ["x", "y", "z"]) ["y", "x"] ["x"] = 1/4
    ∧ run (mkDefault 1 ["x", "y", "z"]) ["x", "y"] ["x"] = 1/2
    ∧ (1/4 : ℚ) ≠ 1/2
    ∧ run (mkDefault 1 ["x", "y", "z"]) ["x", "x"] ["x", "x"] = 1/2
    ∧ (1/2 : ℚ) ≠ 1 := by
  have hne : ¬ ("y" : String) = "x" := by decide
  have wyx : defaultWeightFn 1 ["x", "y", "z"] "y" "x" = 1/2 := by
    norm_num [defaultWeightFn, hne,
      show jsIndexOf ["x", "y", "z"] "y" = 1 from by decide,
      show jsIndexOf ["x", "y", "z"] "x" = 0 from by decide]
  have wxx : defaultWeightFn 1 ["x", "y", "z"] "x" "x" = 1 := by
    norm_num [defaultWeightFn]
  refine ⟨?_, ?_, by norm_num, ?_, by norm_num⟩
  · simp only [run, mkDefault, greedyLoop, bestMatch, List.foldl_cons, List.foldl_nil,
      List.any_cons, List.any_nil, List.length_cons, List.length_nil]
    norm_num [wyx, wxx]
  · simp only [run, mkDefault, greedyLoop, bestMatch, List.foldl_cons, List.foldl_nil,
      List.any_cons, List.any_nil, List.length_cons, List.length_nil]
    norm_num [wyx, wxx]
  · simp only [run, mkDefault, greedyLoop, bestMatch, List.foldl_cons, List.foldl_nil,
      List.any_cons, List.any_nil, List.length_cons, List.length_nil]
    norm_num [wyx, wxx]

end DistanceComparisonModel

/-- An exact-match weight function (1 for identical labels, 0
otherwise), the simplest weight function a model can be constructed
with. -/
def exactWeightFn (k l : String) : ℚ := if k = l then 1 else 0

namespace KrippendorffsComparisonModel

theorem core_eval_example :
    core ["a", "b"] [[.s "a", .s "a"], [.s "b", .s "a"]] exactWeightFn
      = some (1/2, 5/8) := by
  have h1 : core ["a", "b"] [[.s "a", .s "a"], [.s "b", .s "a"]] exactWeightFn
      = if ((4 : ℕ) : ℚ) / ((2 : ℕ) : ℚ) = 0 then none
        else some (singleObserved ["a", "b"] exactWeightFn [[["a"], ["a"]], [["b"], ["a"]]] 2,
                   expectedAgreement ["a", "b"] [[["a"], ["a"]], [["b"], ["a"]]] 2) := rfl
  have h2 : ¬ (((4 : ℕ) : ℚ) / ((2 : ℕ) : ℚ) = 0) := by norm_num
  rw [h1, if_neg h2]
  have hd0 : itemDisagreement ["a", "b"] exactWeightFn [[["a"], ["a"]], [["b"], ["a"]]] 0 = 2 := by
    show (((1 : ℕ) : ℚ) * (((1 : ℕ) : ℚ) - 1) * (1 - 1)
          + (((1 : ℕ) : ℚ) * ((1 : ℕ) : ℚ) * (1 - 0) * 2 + 0))
        + ((((1 : ℕ) : ℚ) * (((1 : ℕ) : ℚ) - 1) * (1 - 1) + 0) + 0) = 2
    norm_num
  have hd1 : itemDisagreement ["a", "b"] exactWeightFn [[["a"], ["a"]], [["b"], ["a"]]] 1 = 0 := by
    show (((2 : ℕ) : ℚ) * (((2 : ℕ) : ℚ) - 1) * (1 - 1)
          + (((2 : ℕ) : ℚ) * ((0 : ℕ) : ℚ) * (1 - 0) * 2 + 0))
        + ((((0 : ℕ) : ℚ) * (((0 : ℕ) : ℚ) - 1) * (1 - 1) + 0) + 0) = 0
    norm_num
  have hso : singleObserved ["a", "b"] exactWeightFn [[["a"], ["a"]], [["b"], ["a"]]] 2 = 1/2 := by
    simp only [singleObserved, show List.range 2 = [0, 1] from by decide,
      List.map_cons, List.map_nil,
      show riFun ["a", "b"] [[["a"], ["a"]], [["b"], ["a"]]] 0 = 2 from by decide,
      show riFun ["a", "b"] [[["a"], ["a"]], [["b"], ["a"]]] 1 = 2 from by decide,
      hd0, hd1, List.sum_cons, List.sum_nil]
    norm_num
  have hea : expectedAgreement ["a", "b"] [[["a"], ["a"]], [["b"], ["a"]]] 2 = 5/8 := by
    simp only [expectedAgreement,
      show labelCount [[["a"], ["a"]], [["b"], ["a"]]] 2 "a" = 3 from by decide,
      show labelCount [[["a"], ["a"]], [["b"], ["a"]]] 2 "b" = 1 from by decide,
      show totalAssignments [[["a"], ["a"]], [["b"], ["a"]]] 2 = 4 from by decide,
      List.map_cons, List.map_nil, List.sum_cons, List.sum_nil]
    norm_num
  rw [hso, hea]

theorem calculate_eq (labels : List String) (rev : List (List LVal))
    (w : String → String → ℚ) (pa pe : ℚ)
    (h : core labels rev w = some (pa, pe)) :
    calculateKrippendorffsAlpha labels rev w =
      if 1 - pe = 0 then (if pa = 1 then some 1 else none)
      else some ((⌊(pa - pe) / (1 - pe) * 1000⌋ : ℚ) / 1000) := by
  unfold calculateKrippendorffsAlpha
  rw [h]

end KrippendorffsComparisonModel

/-- C5 (counterexample): at labels `a, b`, rater sequences `[a, a]` and
`[b, a]` and the exact-match weight function, the pipeline yields
`p_a = 1/2`, `p_e = 5/8`, so `alpha = -1/3`; the source returns
`Math.floor(-1000/3)/1000 = -0.334`, while truncation toward zero of the
scaled value, as asserted by the specification, gives `-0.333`. -/
theorem c5_krippendorffs_floor_counterexample :
    KrippendorffsComparisonModel.core ["a", "b"]
        [[.s "a", .s "a"], [.s "b", .s "a"]] exactWeightFn = some (1/2, 5/8)
    ∧ KrippendorffsComparisonModel.calculateKrippendorffsAlpha ["a", "b"]
        [[.s "a", .s "a"], [.s "b", .s "a"]] exactWeightFn = some (-334/1000)
    ∧ KrippendorffsComparisonModel.claimedRound3 ((1/2 - 5/8) / (1 - 5/8)) = -333/1000
    ∧ ((-334 : ℚ)/1000) ≠ -333/1000 := by
  refine ⟨KrippendorffsComparisonModel.core_eval_example, ?_, ?_, by norm_num⟩
  · rw [KrippendorffsComparisonModel.calculate_eq _ _ _ _ _
      KrippendorffsComparisonModel.core_eval_example]
    rw [if_neg (by norm_num : ¬ ((1 : ℚ) - 5/8 = 0))]
    have : ((1 : ℚ)/2 - 5/8) / (1 - 5/8) * 1000 = -1000/3 := by norm_num
    rw [this]
    rw [show (⌊(-1000 : ℚ)/3⌋ : ℤ) = -334 from by
      rw [Int.floor_eq_iff] <;> norm_num]
    norm_num
  · unfold KrippendorffsComparisonModel.claimedRound3
    rw [if_neg (by norm_num : ¬ (0 ≤ ((1 : ℚ)/2 - 5/8) / (1 - 5/8) * 1000))]
    have : ((1 : ℚ)/2 - 5/8) / (1 - 5/8) * 1000 = -1000/3 := by norm_num
    rw [this]
    rw [show (⌈(-1000 : ℚ)/3⌉ : ℤ) = -333 from by
      rw [Int.ceil_eq_iff] <;> norm_num]
    norm_num

/-- C5 (amended): over the pipeline's observed and expected agreements
`(p_a, p_e)`, `KrippendorffsComparisonModel` returns the `NaN`-style
undefined sentinel (never an exception) when `1 - p_e = 0` and `p_a ≠ 1`
and `1.0` when `p_a = 1`; otherwise it returns
`(p_a - p_e) / (1 - p_e)` rounded to 3 decimals by flooring the scaled
value — which agrees with truncation toward zero only for nonnegative
alphas (for negative alphas the floor rounds away from zero). -/
theorem c5_krippendorffs_alpha_amended (labels : List String)
    (rev : List (List LVal)) (w : String → String → ℚ) (pa pe : ℚ)
    (h : KrippendorffsComparisonModel.core labels rev w = some (pa, pe)) :
    (1 - pe = 0 →
      KrippendorffsComparisonModel.calculateKrippendorffsAlpha labels rev w
        = if pa = 1 then some 1 else none)
    ∧ (1 - pe ≠ 0 →
        KrippendorffsComparisonModel.calculateKrippendorffsAlpha labels rev w
          = some ((⌊(pa - pe) / (1 - pe) * 1000⌋ : ℚ) / 1000)
        ∧ (0 ≤ (pa - pe) / (1 - pe) →
            ((⌊(pa - pe) / (1 - pe) * 1000⌋ : ℚ) / 1000)
              = KrippendorffsComparisonModel.claimedRound3 ((pa - pe) / (1 - pe)))) := by
  constructor
  · intro h0
    rw [KrippendorffsComparisonModel.calculate_eq labels rev w pa pe h, if_pos h0]
  · intro h0
    constructor
    · rw [KrippendorffsComparisonModel.calculate_eq labels rev w pa pe h, if_neg h0]
    · intro hpos
      unfold KrippendorffsComparisonModel.claimedRound3
      rw [if_pos (by positivity)]

/-- Witness for `c5_krippendorffs_alpha_amended` at the concrete input
whose core evaluates to `(1/2, 5/8)`. -/
theorem c5_krippendorffs_alpha_amended_witness :
    KrippendorffsComparisonModel.calculateKrippendorffsAlpha ["a", "b"]
        [[.s "a", .s "a"], [.s "b", .s "a"]] exactWeightFn
      = some ((⌊((1 : ℚ)/2 - 5/8) / (1 - 5/8) * 1000⌋ : ℚ) / 1000) :=
  ((c5_krippendorffs_alpha_amended ["a", "b"]
      [[.s "a", .s "a"], [.s "b", .s "a"]] exactWeightFn (1/2) (5/8)
      KrippendorffsComparisonModel.core_eval_example).2 (by norm_num)).1

end Aitomics
